import Mathlib

/-
Formal model of the ps-sig repository (Pointcheval-Sanders signatures).

Shallow embedding. The pairing groups G_s (signature group), G_v (verkey
group) and G_T all have the same prime order q; we represent each group
element by its discrete logarithm with respect to a fixed generator, i.e.
by an element of ZMod q, written additively. Scalar multiplication of a
group element by a field element becomes multiplication in ZMod q, group
addition becomes addition, the identity element is 0, and the type-3
pairing e becomes multiplication of discrete logs: e(aP, bQ) = ab e(P, Q),
so in dlog coordinates e(a, b) = a * b and the G_T identity is 0.
GT.is_one(e) is therefore the test e = 0.

Rust Result is modelled by Except PSError, a Rust panic (out-of-bounds
indexing, unwrap of an Err) by Option.none: functions that can panic
return Option, with none meaning an abort.

The files src/keys.rs (Params::new, keygen, keygen_2018) are not present
in the sources; keygen is modelled from the spec, with its random scalars
passed explicitly. All other definitions are translated from
src/signature.rs, src/signature_2018.rs and src/multi_signature.rs.
Randomness (FieldElement::random, hash-to-curve outputs) is passed as
explicit arguments or function parameters.
-/

namespace PS

/-- Error type of the crate, from src/errors.rs. -/
inductive PSError where
  | UnsupportedNoOfMessages (expected given : Nat)
  | UnequalNoOfBasesExponents (bases exponents : Nat)
  | IncompatibleVerkeysForAggregation
  | IncompatibleSigsForAggregation
  | GeneralError (msg : String)
deriving DecidableEq, Repr

variable {q : ℕ}

/-- Params hold the two generators g (signature group) and g_tilde (verkey
group), in dlog coordinates. Params::new lives in the missing keys.rs; per
the spec they are hash-to-curve outputs, so arbitrary group elements. -/
structure Params (q : ℕ) where
  g : ZMod q
  g_tilde : ZMod q
deriving DecidableEq

/-- Sigkey from keys.rs (missing file; shape from the spec data model). -/
structure Sigkey (q : ℕ) where
  x : ZMod q
  y : List (ZMod q)
deriving DecidableEq

/-- Verkey from keys.rs (missing file; shape from the spec data model). -/
structure Verkey (q : ℕ) where
  X_tilde : ZMod q
  Y_tilde : List (ZMod q)
deriving DecidableEq

/-- 2016-scheme signature, src/signature.rs lines 12-16. -/
structure Signature (q : ℕ) where
  sigma_1 : ZMod q
  sigma_2 : ZMod q
deriving DecidableEq

/-- 2018-scheme signature, src/signature_2018.rs lines 10-14. -/
structure Signature2018 (q : ℕ) where
  m_prime : ZMod q
  sig : Signature q
deriving DecidableEq

/-- Modelled from the spec: keygen lives in src/keys.rs which is absent from
the sources. Per spec section 4.B it samples x and y[0..L] uniformly from F
and computes X_tilde = g_tilde^x, Y_tilde[i] = g_tilde^(y[i]). The sampled
scalars are passed explicitly; L is y.length. -/
def keygen (x : ZMod q) (y : List (ZMod q)) (params : Params q) : Sigkey q × Verkey q :=
  ({ x := x, y := y },
   { X_tilde := x * params.g_tilde, Y_tilde := y.map (fun yi => yi * params.g_tilde) })

/-- ate_2_pairing(g1, g2, h1, h2) = e(g1,g2) * e(h1,h2), src/lib.rs. In dlog
coordinates of G_T this is g1*g2 + h1*h2 (the facade only swaps argument
order per build configuration, which the dlog model does not see). -/
def ate_2_pairing (g1 g2 h1 h2 : ZMod q) : ZMod q :=
  g1 * g2 + h1 * h2

/-- Dot product of two scalar lists, truncated at the shorter one. Used to
render the source loops computing sums of products y[i]*m[i]. -/
def dot : List (ZMod q) → List (ZMod q) → ZMod q
  | a :: xs, b :: ys => a * b + dot xs ys
  | _, _ => 0

/-- check_sigkey_and_messages_compat, src/signature.rs lines 121-132. -/
def check_sigkey_and_messages_compat (messages : List (ZMod q)) (sigkey : Sigkey q) :
    Except PSError Unit :=
  if sigkey.y.length ≠ messages.length then
    .error (.UnsupportedNoOfMessages messages.length sigkey.y.length)
  else
    .ok ()

/-- check_verkey_and_messages_compat, src/signature.rs lines 108-119. -/
def check_verkey_and_messages_compat (messages : List (ZMod q)) (verkey : Verkey q) :
    Except PSError Unit :=
  if messages.length ≠ verkey.Y_tilde.length then
    .error (.UnsupportedNoOfMessages messages.length verkey.Y_tilde.length)
  else
    .ok ()

/-- sign_with_given_sigma_1, src/signature.rs lines 61-78. The source loop
computes exp = x + sum over i of y[offset+i]*m[i]; under the length guard
y.length = offset + messages.length this sum is dot (y.drop offset) messages.
The group exponentiation h^exp is exp * h in dlog coordinates. -/
def Signature.sign_with_given_sigma_1 (messages : List (ZMod q)) (sigkey : Sigkey q)
    (offset : ℕ) (h : ZMod q) : Except PSError (ZMod q) :=
  if sigkey.y.length ≠ offset + messages.length then
    .error (.UnsupportedNoOfMessages (offset + messages.length) sigkey.y.length)
  else
    .ok ((sigkey.x + dot (sigkey.y.drop offset) messages) * h)

/-- sign_with_sigma_1_generated_from_given_exp, src/signature.rs lines 47-58:
h = g^u, then sign with that sigma_1. -/
def Signature.sign_with_sigma_1_generated_from_given_exp (messages : List (ZMod q))
    (sigkey : Sigkey q) (u : ZMod q) (offset : ℕ) (g : ZMod q) :
    Except PSError (ZMod q × ZMod q) :=
  let h := u * g
  match Signature.sign_with_given_sigma_1 messages sigkey offset h with
  | .error e => .error e
  | .ok h_exp => .ok (h, h_exp)

/-- Signature::new, src/signature.rs lines 21-33. The random scalar u
(FieldElement::random) is passed explicitly. -/
def Signature.new (messages : List (ZMod q)) (sigkey : Sigkey q) (params : Params q)
    (u : ZMod q) : Except PSError (Signature q) :=
  match check_sigkey_and_messages_compat messages sigkey with
  | .error e => .error e
  | .ok _ =>
    match Signature.sign_with_sigma_1_generated_from_given_exp messages sigkey u 0 params.g with
    | .error e => .error e
    | .ok p => .ok { sigma_1 := p.1, sigma_2 := p.2 }

/-- Signature::new_deterministic, src/signature.rs lines 38-43. The
hash-to-curve generate_sigma_1_from_messages is an external primitive,
passed as the function parameter hashG. -/
def Signature.new_deterministic (hashG : List (ZMod q) → ZMod q)
    (messages : List (ZMod q)) (sigkey : Sigkey q) : Except PSError (Signature q) :=
  match check_sigkey_and_messages_compat messages sigkey with
  | .error e => .error e
  | .ok _ =>
    match Signature.sign_with_given_sigma_1 messages sigkey 0 (hashG messages) with
    | .error e => .error e
    | .ok sigma_2 => .ok { sigma_1 := hashG messages, sigma_2 := sigma_2 }

/-- Signature::is_identity, src/signature.rs lines 135-137. -/
def Signature.is_identity (sig : Signature q) : Prop :=
  sig.sigma_1 = 0 ∨ sig.sigma_2 = 0

instance (sig : Signature q) : Decidable sig.is_identity :=
  inferInstanceAs (Decidable (_ ∨ _))

/-- multi_scalar_mul_var_time of the amcl wrapper: errors when the base and
exponent counts differ (spec error table: UnequalNoOfBasesExponents),
otherwise returns sum of bases[i]^exps[i], which is a dot product in dlog
coordinates. -/
def multi_scalar_mul_var_time (bases exps : List (ZMod q)) : Except PSError (ZMod q) :=
  if bases.length ≠ exps.length then
    .error (.UnequalNoOfBasesExponents bases.length exps.length)
  else
    .ok (dot bases exps)

/-- Signature::pairing_check, src/signature.rs lines 140-153. The enumerate
loop pushes vk.Y_tilde[i] and messages[i] for each i < messages.length, so
the collected bases are the first messages.length entries of Y_tilde; the
Rust indexing panics when Y_tilde is shorter than messages (none), and the
unwrap on the MSM result panics when the MSM errors (none). -/
def Signature.pairing_check (sig : Signature q) (messages : List (ZMod q))
    (vk : Verkey q) (params : Params q) : Option Bool :=
  if messages.length ≤ vk.Y_tilde.length then
    match multi_scalar_mul_var_time (vk.Y_tilde.take messages.length) messages with
    | .error _ => none
    | .ok msm =>
      let Y_m := vk.X_tilde + msm
      some (decide (ate_2_pairing sig.sigma_1 Y_m (-sig.sigma_2) params.g_tilde = 0))
  else
    none

/-- Signature::verify, src/signature.rs lines 81-98. -/
def Signature.verify (sig : Signature q) (messages : List (ZMod q)) (vk : Verkey q)
    (params : Params q) : Option (Except PSError Bool) :=
  if vk.Y_tilde.length ≠ messages.length then
    some (.error (.UnsupportedNoOfMessages vk.Y_tilde.length messages.length))
  else if sig.is_identity then
    some (.ok false)
  else
    (Signature.pairing_check sig messages vk params).map Except.ok

/-- 2018 Signature::verify, src/signature_2018.rs lines 47-66: length check
against messages.length + 1, identity check on the inner 2016 signature,
then the 2016 pairing check on messages with m_prime appended. -/
def Signature2018.verify (s : Signature2018 q) (messages : List (ZMod q)) (vk : Verkey q)
    (params : Params q) : Option (Except PSError Bool) :=
  if vk.Y_tilde.length ≠ messages.length + 1 then
    some (.error (.UnsupportedNoOfMessages vk.Y_tilde.length (messages.length + 1)))
  else if s.sig.is_identity then
    some (.ok false)
  else
    (Signature.pairing_check s.sig (messages ++ [s.m_prime]) vk params).map Except.ok

/-- AggregatedVerkeyFast::from_verkeys, src/multi_signature.rs lines 18-37.
The source folds starting from identities: X_tilde accumulates the sum of
all X_tilde_j, Y_tilde starts as y_len identities and accumulates pointwise
sums, rendered as a fold of zipWith addition. -/
def AggregatedVerkeyFast.from_verkeys : List (Verkey q) → Except PSError (Verkey q)
  | [] => .error (.GeneralError "Provide at least one key")
  | vk0 :: rest =>
    if ∀ vk ∈ vk0 :: rest, vk.Y_tilde.length = vk0.Y_tilde.length then
      .ok { X_tilde := (vk0 :: rest).foldl (fun acc vk => acc + vk.X_tilde) 0,
            Y_tilde := (vk0 :: rest).foldl (fun acc vk => List.zipWith (fun a b => a + b) acc vk.Y_tilde)
              (List.replicate vk0.Y_tilde.length 0) }
    else
      .error .IncompatibleVerkeysForAggregation

/-- MultiSignatureFast::combine, src/multi_signature.rs lines 69-79. Indexes
sigs[0] without an emptiness check, so the empty list panics (none); all
callers in the crate check emptiness first. -/
def MultiSignatureFast.combine : List (Signature q) → Option (Except PSError (Signature q))
  | [] => none
  | s0 :: rest =>
    if ∀ s ∈ s0 :: rest, s.sigma_1 = s0.sigma_1 then
      some (.ok { sigma_1 := s0.sigma_1,
                  sigma_2 := (s0 :: rest).foldl (fun acc s => acc + s.sigma_2) 0 })
    else
      some (.error .IncompatibleSigsForAggregation)

/-- MultiSignatureFast::from_sigs, src/multi_signature.rs lines 44-51. -/
def MultiSignatureFast.from_sigs (sigs : List (Signature q)) :
    Option (Except PSError (Signature q)) :=
  match sigs with
  | [] => some (.error (.GeneralError "Provide at least one signature"))
  | s0 :: rest => MultiSignatureFast.combine (s0 :: rest)

/-- MultiSignatureFast::from_sigs_2018, src/multi_signature.rs lines 54-66. -/
def MultiSignatureFast.from_sigs_2018 : List (Signature2018 q) →
    Option (Except PSError (Signature2018 q))
  | [] => some (.error (.GeneralError "Provide at least one signature"))
  | s0 :: rest =>
    if ∀ s ∈ s0 :: rest, s.m_prime = s0.m_prime then
      match MultiSignatureFast.combine ((s0 :: rest).map (fun s => s.sig)) with
      | none => none
      | some (.error e) => some (.error e)
      | some (.ok sig) => some (.ok { m_prime := s0.m_prime, sig := sig })
    else
      some (.error .IncompatibleSigsForAggregation)

/-- MultiSignatureFast::verify, src/multi_signature.rs lines 84-87. -/
def MultiSignatureFast.verify (sig : Signature q) (messages : List (ZMod q))
    (ver_keys : List (Verkey q)) (params : Params q) : Option (Except PSError Bool) :=
  match AggregatedVerkeyFast.from_verkeys ver_keys with
  | .error e => some (.error e)
  | .ok avk => Signature.verify sig messages avk params

/-- The dot product against the empty exponent list is zero. -/
theorem dot_nil_right (l : List (ZMod q)) : dot l [] = 0 := by
  cases l <;> rfl

/-- Scaling every base by c scales the dot product by c. -/
theorem dot_map_mul (c : ZMod q) : ∀ (y M : List (ZMod q)),
    dot (y.map (fun a => a * c)) M = c * dot y M
  | [], M => by simp [dot]
  | a :: ys, [] => by simp [dot_nil_right]
  | a :: ys, b :: ms => by
    simp only [List.map_cons, dot, dot_map_mul c ys ms]
    ring

/-- The dot product distributes over pointwise addition of equal-length bases. -/
theorem dot_zipWith_add : ∀ (a b M : List (ZMod q)), a.length = b.length →
    dot (List.zipWith (fun x y => x + y) a b) M = dot a M + dot b M
  | [], [], M, _ => by simp [dot]
  | [], _ :: _, _, h => by simp at h
  | _ :: _, [], _, h => by simp at h
  | x :: xs, y :: ys, [], _ => by simp [dot_nil_right]
  | x :: xs, y :: ys, m :: ms, h => by
    simp only [List.zipWith_cons_cons, dot,
      dot_zipWith_add xs ys ms (by simpa using h)]
    ring

/-- Dot product against an all-zero base list vanishes. -/
theorem dot_replicate_zero : ∀ (n : ℕ) (M : List (ZMod q)),
    dot (List.replicate n (0 : ZMod q)) M = 0
  | 0, M => by cases M <;> rfl
  | n + 1, [] => by simp [dot_nil_right]
  | n + 1, m :: ms => by
    simp [List.replicate_succ, dot, dot_replicate_zero n ms]

/-- A left fold that keeps adding f of each element computes the sum of the map. -/
theorem foldl_add_eq_sum {α : Type} (f : α → ZMod q) : ∀ (l : List α) (s : ZMod q),
    l.foldl (fun acc x => acc + f x) s = s + (l.map f).sum
  | [], s => by simp
  | x :: xs, s => by
    simp only [List.foldl_cons, List.map_cons, List.sum_cons,
      foldl_add_eq_sum f xs (s + f x)]
    ring

/-- Sum of a pointwise sum of maps. -/
theorem sum_map_add {α : Type} (f g : α → ZMod q) : ∀ (l : List α),
    (l.map (fun x => f x + g x)).sum = (l.map f).sum + (l.map g).sum
  | [] => by simp
  | x :: xs => by
    simp only [List.map_cons, List.sum_cons, sum_map_add f g xs]
    ring

/-- Length is preserved by the pointwise-sum fold used in verkey aggregation. -/
theorem foldl_zipWith_length (n : ℕ) : ∀ (vks : List (Verkey q)) (acc : List (ZMod q)),
    acc.length = n → (∀ vk ∈ vks, vk.Y_tilde.length = n) →
    (vks.foldl (fun a vk => List.zipWith (fun x y => x + y) a vk.Y_tilde) acc).length = n
  | [], acc, ha, _ => ha
  | vk :: vks, acc, ha, hv => by
    simp only [List.foldl_cons]
    exact foldl_zipWith_length n vks _
      (by
        rw [List.length_zipWith, ha, hv vk (List.mem_cons_self vk vks), min_self])
      (fun w hw => hv w (List.mem_cons_of_mem vk hw))

/-- Dot product of the pointwise-sum fold: it splits into the dot product of
the accumulator plus the sum of the individual dot products. -/
theorem foldl_zipWith_dot (n : ℕ) (M : List (ZMod q)) :
    ∀ (vks : List (Verkey q)) (acc : List (ZMod q)),
    acc.length = n → (∀ vk ∈ vks, vk.Y_tilde.length = n) →
    dot (vks.foldl (fun a vk => List.zipWith (fun x y => x + y) a vk.Y_tilde) acc) M =
      dot acc M + (vks.map (fun vk => dot vk.Y_tilde M)).sum
  | [], acc, _, _ => by simp
  | vk :: vks, acc, ha, hv => by
    have hlen : vk.Y_tilde.length = n := hv vk (List.mem_cons_self vk vks)
    have hzlen : (List.zipWith (fun x y => x + y) acc vk.Y_tilde).length = n := by
      rw [List.length_zipWith, ha, hlen, min_self]
    simp only [List.foldl_cons, List.map_cons, List.sum_cons,
      foldl_zipWith_dot n M vks _ hzlen (fun w hw => hv w (List.mem_cons_of_mem vk hw)),
      dot_zipWith_add acc vk.Y_tilde M (by rw [ha, hlen])]
    ring

/-- Entrywise value of a pointwise sum of two equal-length lists. -/
theorem zipWith_add_getD : ∀ (a b : List (ZMod q)) (i : ℕ), a.length = b.length →
    i < a.length →
    (List.zipWith (fun x y => x + y) a b).getD i 0 = a.getD i 0 + b.getD i 0
  | [], _, i, _, hi => by simp at hi
  | _ :: _, [], i, h, _ => by simp at h
  | x :: xs, y :: ys, 0, _, _ => by simp
  | x :: xs, y :: ys, i + 1, h, hi => by
    simpa using zipWith_add_getD xs ys i (by simpa using h) (by simpa using hi)

/-- Entrywise value of the pointwise-sum fold used in verkey aggregation. -/
theorem foldl_zipWith_getD (n : ℕ) (i : ℕ) (hi : i < n) :
    ∀ (vks : List (Verkey q)) (acc : List (ZMod q)),
    acc.length = n → (∀ vk ∈ vks, vk.Y_tilde.length = n) →
    (vks.foldl (fun a vk => List.zipWith (fun x y => x + y) a vk.Y_tilde) acc).getD i 0 =
      acc.getD i 0 + (vks.map (fun vk => vk.Y_tilde.getD i 0)).sum
  | [], acc, _, _ => by simp
  | vk :: vks, acc, ha, hv => by
    have hlen : vk.Y_tilde.length = n := hv vk (List.mem_cons_self vk vks)
    have hzlen : (List.zipWith (fun x y => x + y) acc vk.Y_tilde).length = n := by
      rw [List.length_zipWith, ha, hlen, min_self]
    simp only [List.foldl_cons, List.map_cons, List.sum_cons,
      foldl_zipWith_getD n i hi vks _ hzlen (fun w hw => hv w (List.mem_cons_of_mem vk hw)),
      zipWith_add_getD acc vk.Y_tilde i (by rw [ha, hlen]) (by rw [ha]; exact hi)]
    ring

/-- The pairing check evaluates the claimed G_T expression whenever the verkey
is at least as long as the message vector and exactly as long here. -/
theorem pairing_check_eq (sig : Signature q) (messages : List (ZMod q)) (vk : Verkey q)
    (params : Params q) (hlen : vk.Y_tilde.length = messages.length) :
    Signature.pairing_check sig messages vk params =
      some (decide (ate_2_pairing sig.sigma_1 (vk.X_tilde + dot vk.Y_tilde messages)
        (-sig.sigma_2) params.g_tilde = 0)) := by
  unfold Signature.pairing_check multi_scalar_mul_var_time
  have htake : vk.Y_tilde.take messages.length = vk.Y_tilde := by
    rw [← hlen]
    exact List.take_length vk.Y_tilde
  rw [if_pos (le_of_eq hlen.symm), htake, if_neg (by rw [hlen]; exact fun h => h rfl)]

/-- verify returns the length-mismatch error when the lengths differ. -/
theorem verify_len_mismatch (sig : Signature q) (messages : List (ZMod q)) (vk : Verkey q)
    (params : Params q) (h : vk.Y_tilde.length ≠ messages.length) :
    Signature.verify sig messages vk params =
      some (.error (.UnsupportedNoOfMessages vk.Y_tilde.length messages.length)) := by
  unfold Signature.verify
  rw [if_pos h]

/-- verify returns Ok false on an identity component (lengths matching). -/
theorem verify_of_identity (sig : Signature q) (messages : List (ZMod q)) (vk : Verkey q)
    (params : Params q) (hlen : vk.Y_tilde.length = messages.length)
    (hid : sig.is_identity) :
    Signature.verify sig messages vk params = some (.ok false) := by
  unfold Signature.verify
  rw [if_neg (by simp [hlen]), if_pos hid]

/-- verify evaluates the pairing equation when the lengths match and no
component is the identity. -/
theorem verify_pairing_eq (sig : Signature q) (messages : List (ZMod q)) (vk : Verkey q)
    (params : Params q) (hlen : vk.Y_tilde.length = messages.length)
    (hid : ¬ sig.is_identity) :
    Signature.verify sig messages vk params =
      some (.ok (decide (ate_2_pairing sig.sigma_1 (vk.X_tilde + dot vk.Y_tilde messages)
        (-sig.sigma_2) params.g_tilde = 0))) := by
  unfold Signature.verify
  rw [if_neg (by simp [hlen]), if_neg hid, pairing_check_eq sig messages vk params hlen]
  rfl

/-- C2: Signature::verify returns Err(UnsupportedNoOfMessages) exactly when
the message count differs from the verkey length; with matching lengths it
returns Ok(false) on an identity component, otherwise Ok of the G_T test
e(sigma_1, X_tilde + dot Y_tilde M) * e(-sigma_2, g_tilde) = 1; with matching
lengths the result is always a boolean, never an error. -/
theorem C2_verify_error_channel (sig : Signature q) (M : List (ZMod q)) (vk : Verkey q)
    (params : Params q) :
    (Signature.verify sig M vk params =
        some (.error (.UnsupportedNoOfMessages vk.Y_tilde.length M.length)) ↔
      M.length ≠ vk.Y_tilde.length)
  ∧ (M.length = vk.Y_tilde.length → sig.is_identity →
      Signature.verify sig M vk params = some (.ok false))
  ∧ (M.length = vk.Y_tilde.length → ¬ sig.is_identity →
      Signature.verify sig M vk params =
        some (.ok (decide (ate_2_pairing sig.sigma_1 (vk.X_tilde + dot vk.Y_tilde M)
          (-sig.sigma_2) params.g_tilde = 0))))
  ∧ (M.length = vk.Y_tilde.length → ∃ b, Signature.verify sig M vk params = some (.ok b)) := by
  refine ⟨⟨?_, ?_⟩, ?_, ?_, ?_⟩
  · intro h
    by_contra hne
    by_cases hid : sig.is_identity
    · rw [verify_of_identity sig M vk params hne.symm hid] at h
      simp at h
    · rw [verify_pairing_eq sig M vk params hne.symm hid] at h
      simp at h
  · intro h
    exact verify_len_mismatch sig M vk params (Ne.symm h)
  · intro hlen hid
    exact verify_of_identity sig M vk params hlen.symm hid
  · intro hlen hid
    exact verify_pairing_eq sig M vk params hlen.symm hid
  · intro hlen
    by_cases hid : sig.is_identity
    · exact ⟨false, verify_of_identity sig M vk params hlen.symm hid⟩
    · exact ⟨_, verify_pairing_eq sig M vk params hlen.symm hid⟩

/-- Witness for C2 at a concrete input: a signature with identity sigma_1 and
matching lengths verifies to Ok(false). -/
theorem C2_verify_error_channel_witness :
    Signature.verify (q := 5) ⟨0, 1⟩ [1] ⟨1, [1]⟩ ⟨1, 1⟩ = some (.ok false) :=
  (C2_verify_error_channel ⟨0, 1⟩ [1] ⟨1, [1]⟩ ⟨1, 1⟩).2.1 rfl (Or.inl rfl)

/-- C6: the 2018 Signature::verify errors with UnsupportedNoOfMessages when
the verkey length differs from the message count plus one, returns Ok(false)
on an identity component, and otherwise reuses the 2016 pairing check on the
message vector extended with m_prime against the length-(L+1) verkey. -/
theorem C6_verify_2018 (s : Signature2018 q) (M : List (ZMod q)) (vk : Verkey q)
    (params : Params q) :
    (vk.Y_tilde.length ≠ M.length + 1 →
      Signature2018.verify s M vk params =
        some (.error (.UnsupportedNoOfMessages vk.Y_tilde.length (M.length + 1))))
  ∧ (vk.Y_tilde.length = M.length + 1 → s.sig.is_identity →
      Signature2018.verify s M vk params = some (.ok false))
  ∧ (vk.Y_tilde.length = M.length + 1 → ¬ s.sig.is_identity →
      Signature2018.verify s M vk params =
        (Signature.pairing_check s.sig (M ++ [s.m_prime]) vk params).map Except.ok
      ∧ Signature2018.verify s M vk params =
        some (.ok (decide (ate_2_pairing s.sig.sigma_1
          (vk.X_tilde + dot vk.Y_tilde (M ++ [s.m_prime]))
          (-s.sig.sigma_2) params.g_tilde = 0)))) := by
  refine ⟨?_, ?_, ?_⟩
  · intro h
    unfold Signature2018.verify
    rw [if_pos h]
  · intro hlen hid
    unfold Signature2018.verify
    rw [if_neg (by simp [hlen]), if_pos hid]
  · intro hlen hid
    have hlen2 : vk.Y_tilde.length = (M ++ [s.m_prime]).length := by
      simp [hlen]
    constructor
    · unfold Signature2018.verify
      rw [if_neg (by simp [hlen]), if_neg hid]
    · unfold Signature2018.verify
      rw [if_neg (by simp [hlen]), if_neg hid,
        pairing_check_eq s.sig (M ++ [s.m_prime]) vk params hlen2]
      rfl

/-- Witness for C6 at a concrete input: the non-identity branch reduces the
2018 verification to the 2016 pairing check on the extended vector. -/
theorem C6_verify_2018_witness :
    Signature2018.verify (q := 5) ⟨1, ⟨1, 1⟩⟩ [1] ⟨1, [1, 1]⟩ ⟨1, 1⟩ =
      (Signature.pairing_check (q := 5) ⟨1, 1⟩ ([1] ++ [1]) ⟨1, [1, 1]⟩ ⟨1, 1⟩).map Except.ok
    ∧ Signature2018.verify (q := 5) ⟨1, ⟨1, 1⟩⟩ [1] ⟨1, [1, 1]⟩ ⟨1, 1⟩ =
      some (.ok (decide (ate_2_pairing (q := 5) 1 (1 + dot [1, 1] ([1] ++ [1])) (-1) 1 = 0))) :=
  (C6_verify_2018 ⟨1, ⟨1, 1⟩⟩ [1] ⟨1, [1, 1]⟩ ⟨1, 1⟩).2.2 rfl (by decide)

/-- C9: Signature::verify never aborts: it always returns a value (isSome);
moreover whenever the message count does not exceed the verkey length, the
MSM inside pairing_check receives equally many bases and exponents, so it
returns Ok and the unwrap branch is unreachable, and pairing_check completes. -/
theorem C9_verify_no_panic (sig : Signature q) (M : List (ZMod q)) (vk : Verkey q)
    (params : Params q) :
    (Signature.verify sig M vk params).isSome = true
  ∧ (M.length ≤ vk.Y_tilde.length →
      (vk.Y_tilde.take M.length).length = M.length
      ∧ multi_scalar_mul_var_time (vk.Y_tilde.take M.length) M =
          .ok (dot (vk.Y_tilde.take M.length) M)
      ∧ Signature.pairing_check sig M vk params ≠ none) := by
  have hcore : ∀ hle : M.length ≤ vk.Y_tilde.length,
      (vk.Y_tilde.take M.length).length = M.length
      ∧ multi_scalar_mul_var_time (vk.Y_tilde.take M.length) M =
          .ok (dot (vk.Y_tilde.take M.length) M)
      ∧ Signature.pairing_check sig M vk params ≠ none := by
    intro hle
    have htl : (vk.Y_tilde.take M.length).length = M.length := by
      rw [List.length_take]
      exact min_eq_left hle
    have hmsm : multi_scalar_mul_var_time (vk.Y_tilde.take M.length) M =
        .ok (dot (vk.Y_tilde.take M.length) M) := by
      unfold multi_scalar_mul_var_time
      rw [if_neg (by simp [htl])]
    refine ⟨htl, hmsm, ?_⟩
    unfold Signature.pairing_check
    rw [if_pos hle, hmsm]
    simp
  refine ⟨?_, hcore⟩
  unfold Signature.verify
  split
  · rfl
  · split
    · rfl
    · rename_i hne _
      rw [not_ne_iff] at hne
      obtain ⟨-, -, hpc⟩ := hcore (le_of_eq hne.symm)
      obtain ⟨b, hb⟩ := Option.ne_none_iff_exists'.mp hpc
      rw [hb]
      rfl

/-- Witness for C9 at a concrete input with matching lengths. -/
theorem C9_verify_no_panic_witness :
    (Signature.verify (q := 5) ⟨1, 1⟩ [1] ⟨1, [1]⟩ ⟨1, 1⟩).isSome = true
  ∧ (([1] : List (ZMod 5)).take 1).length = 1
  ∧ multi_scalar_mul_var_time (q := 5) (([1] : List (ZMod 5)).take 1) [1] =
      .ok (dot (([1] : List (ZMod 5)).take 1) [1])
  ∧ Signature.pairing_check (q := 5) ⟨1, 1⟩ [1] ⟨1, [1]⟩ ⟨1, 1⟩ ≠ none := by
  obtain ⟨h1, h2⟩ := C9_verify_no_panic (q := 5) ⟨1, 1⟩ [1] ⟨1, [1]⟩ ⟨1, 1⟩
  obtain ⟨h3, h4, h5⟩ := h2 (by decide)
  exact ⟨h1, h3, h4, h5⟩

/-- C10: the two length-check sites fill UnsupportedNoOfMessages with
opposite conventions: verify reports expected = verkey length and
given = message count, while check_verkey_and_messages_compat reports
expected = message count and given = verkey length. -/
theorem C10_error_field_conventions (sig : Signature q) (M : List (ZMod q)) (vk : Verkey q)
    (params : Params q) (h : M.length ≠ vk.Y_tilde.length) :
    Signature.verify sig M vk params =
      some (.error (.UnsupportedNoOfMessages vk.Y_tilde.length M.length))
  ∧ check_verkey_and_messages_compat M vk =
      .error (.UnsupportedNoOfMessages M.length vk.Y_tilde.length) := by
  constructor
  · exact verify_len_mismatch sig M vk params (Ne.symm h)
  · unfold check_verkey_and_messages_compat
    rw [if_pos h]

/-- Witness for C10 at a concrete mismatched input. -/
theorem C10_error_field_conventions_witness :
    Signature.verify (q := 5) ⟨1, 1⟩ [] ⟨0, [0]⟩ ⟨1, 1⟩ =
      some (.error (.UnsupportedNoOfMessages 1 0))
  ∧ check_verkey_and_messages_compat (q := 5) [] ⟨0, [0]⟩ =
      .error (.UnsupportedNoOfMessages 0 1) :=
  C10_error_field_conventions ⟨1, 1⟩ [] ⟨0, [0]⟩ ⟨1, 1⟩ (by decide)

/-- Entries of an all-zero replicate list read as zero. -/
theorem getD_replicate_zero : ∀ (n i : ℕ), (List.replicate n (0 : ZMod q)).getD i 0 = 0
  | 0, 0 => rfl
  | 0, _ + 1 => rfl
  | n + 1, 0 => rfl
  | n + 1, i + 1 => by
    rw [List.replicate_succ]
    simp

/-- C7: aggregation rejects structurally bad input with the specified typed
error: empty verkey or signature lists give GeneralError; verkeys of differing
Y_tilde length give IncompatibleVerkeysForAggregation; signatures with a
sigma_1 differing from the first, or 2018 signatures with a differing m_prime,
give IncompatibleSigsForAggregation. -/
theorem C7_aggregation_rejection :
    (AggregatedVerkeyFast.from_verkeys ([] : List (Verkey q)) =
      .error (.GeneralError "Provide at least one key"))
  ∧ (MultiSignatureFast.from_sigs ([] : List (Signature q)) =
      some (.error (.GeneralError "Provide at least one signature")))
  ∧ (MultiSignatureFast.from_sigs_2018 ([] : List (Signature2018 q)) =
      some (.error (.GeneralError "Provide at least one signature")))
  ∧ (∀ (vk0 : Verkey q) (rest : List (Verkey q)),
      ¬ (∀ vk ∈ vk0 :: rest, vk.Y_tilde.length = vk0.Y_tilde.length) →
      AggregatedVerkeyFast.from_verkeys (vk0 :: rest) =
        .error .IncompatibleVerkeysForAggregation)
  ∧ (∀ (s0 : Signature q) (rest : List (Signature q)),
      ¬ (∀ s ∈ s0 :: rest, s.sigma_1 = s0.sigma_1) →
      MultiSignatureFast.from_sigs (s0 :: rest) =
        some (.error .IncompatibleSigsForAggregation))
  ∧ (∀ (s0 : Signature2018 q) (rest : List (Signature2018 q)),
      ¬ (∀ s ∈ s0 :: rest, s.m_prime = s0.m_prime) →
      MultiSignatureFast.from_sigs_2018 (s0 :: rest) =
        some (.error .IncompatibleSigsForAggregation))
  ∧ (∀ (s0 : Signature2018 q) (rest : List (Signature2018 q)),
      (∀ s ∈ s0 :: rest, s.m_prime = s0.m_prime) →
      ¬ (∀ s ∈ s0 :: rest, s.sig.sigma_1 = s0.sig.sigma_1) →
      MultiSignatureFast.from_sigs_2018 (s0 :: rest) =
        some (.error .IncompatibleSigsForAggregation)) := by
  refine ⟨rfl, rfl, rfl, ?_, ?_, ?_, ?_⟩
  · intro vk0 rest h
    simp only [AggregatedVerkeyFast.from_verkeys]
    rw [if_neg h]
  · intro s0 rest h
    simp only [MultiSignatureFast.from_sigs, MultiSignatureFast.combine]
    rw [if_neg h]
  · intro s0 rest h
    simp only [MultiSignatureFast.from_sigs_2018]
    rw [if_neg h]
  · intro s0 rest hall hne
    simp only [MultiSignatureFast.from_sigs_2018, List.map_cons]
    rw [if_pos hall]
    have hg : ¬ ∀ s ∈ s0.sig :: rest.map (fun s => s.sig), s.sigma_1 = s0.sig.sigma_1 := by
      intro hforall
      apply hne
      intro s hs
      rcases List.mem_cons.mp hs with h' | hmem
      · rw [h']
      · exact hforall s.sig (List.mem_cons_of_mem _ (List.mem_map_of_mem _ hmem))
    have hc : MultiSignatureFast.combine (s0.sig :: rest.map (fun s => s.sig)) =
        some (.error .IncompatibleSigsForAggregation) := by
      simp only [MultiSignatureFast.combine]
      rw [if_neg hg]
    rw [hc]

/-- Witness for C7 at concrete inputs: two verkeys of different lengths are
rejected with IncompatibleVerkeysForAggregation. -/
theorem C7_aggregation_rejection_witness :
    AggregatedVerkeyFast.from_verkeys (q := 5) [⟨0, [0]⟩, ⟨0, []⟩] =
      .error .IncompatibleVerkeysForAggregation :=
  (C7_aggregation_rejection (q := 5)).2.2.2.1 ⟨0, [0]⟩ [⟨0, []⟩] (by decide)

/-- C8 counterexample: the claim says signing an empty message vector always
returns an error, but with a sigkey whose y is empty both Signature::new and
Signature::new_deterministic succeed and return a signature. -/
theorem C8_counterexample :
    Signature.new (q := 5) [] ⟨0, []⟩ ⟨1, 1⟩ 1 = .ok ⟨1, 0⟩
  ∧ Signature.new_deterministic (q := 5) (fun _ => 1) [] ⟨0, []⟩ = .ok ⟨1, 0⟩ :=
  ⟨rfl, rfl⟩

/-- C8 amended: signing an empty message vector returns the
UnsupportedNoOfMessages error exactly when the sigkey has a non-empty y;
a length-zero sigkey signs the empty vector successfully. -/
theorem C8_empty_messages_signing (sigkey : Sigkey q) (params : Params q) (u : ZMod q)
    (hashG : List (ZMod q) → ZMod q) :
    ((Signature.new [] sigkey params u =
        .error (.UnsupportedNoOfMessages 0 sigkey.y.length)) ↔ sigkey.y ≠ [])
  ∧ ((Signature.new_deterministic hashG [] sigkey =
        .error (.UnsupportedNoOfMessages 0 sigkey.y.length)) ↔ sigkey.y ≠ []) := by
  obtain ⟨x, y⟩ := sigkey
  cases y with
  | nil =>
    constructor
    · exact iff_of_false
        (by
          simp [Signature.new, check_sigkey_and_messages_compat,
            Signature.sign_with_sigma_1_generated_from_given_exp,
            Signature.sign_with_given_sigma_1])
        (by simp)
    · exact iff_of_false
        (by
          simp [Signature.new_deterministic, check_sigkey_and_messages_compat,
            Signature.sign_with_given_sigma_1])
        (by simp)
  | cons a ys =>
    constructor
    · refine iff_of_true ?_ (List.cons_ne_nil a ys)
      simp only [Signature.new, check_sigkey_and_messages_compat]
      rw [if_pos (by simp)]
      rfl
    · refine iff_of_true ?_ (List.cons_ne_nil a ys)
      simp only [Signature.new_deterministic, check_sigkey_and_messages_compat]
      rw [if_pos (by simp)]
      rfl

/-- Witness for C8: a sigkey with one y element rejects the empty vector. -/
theorem C8_empty_messages_signing_witness :
    Signature.new (q := 5) [] ⟨0, [1]⟩ ⟨1, 1⟩ 1 =
      .error (.UnsupportedNoOfMessages 0 1) :=
  (C8_empty_messages_signing (q := 5) ⟨0, [1]⟩ ⟨1, 1⟩ 1 (fun _ => 1)).1.mpr (by decide)

/-- C4: on a non-empty list of verkeys of a common Y_tilde length,
from_verkeys returns the verkey whose X_tilde is the sum of the X_tilde_j and
whose i-th Y_tilde entry is the sum of the Y_tilde_j[i]; on a non-empty list
of signatures sharing sigma_1, from_sigs returns (sigma_1, sum of sigma_2_j). -/
theorem C4_aggregate_values :
    (∀ (vk0 : Verkey q) (rest : List (Verkey q)),
      (∀ vk ∈ vk0 :: rest, vk.Y_tilde.length = vk0.Y_tilde.length) →
      ∃ avk : Verkey q,
        AggregatedVerkeyFast.from_verkeys (vk0 :: rest) = .ok avk
        ∧ avk.X_tilde = ((vk0 :: rest).map (fun vk => vk.X_tilde)).sum
        ∧ avk.Y_tilde.length = vk0.Y_tilde.length
        ∧ ∀ i < vk0.Y_tilde.length,
            avk.Y_tilde.getD i 0 = ((vk0 :: rest).map (fun vk => vk.Y_tilde.getD i 0)).sum)
  ∧ (∀ (s0 : Signature q) (rest : List (Signature q)),
      (∀ s ∈ s0 :: rest, s.sigma_1 = s0.sigma_1) →
      MultiSignatureFast.from_sigs (s0 :: rest) =
        some (.ok ⟨s0.sigma_1, ((s0 :: rest).map (fun s => s.sigma_2)).sum⟩)) := by
  constructor
  · intro vk0 rest hall
    refine ⟨⟨(vk0 :: rest).foldl (fun acc vk => acc + vk.X_tilde) 0,
      (vk0 :: rest).foldl (fun acc vk => List.zipWith (fun a b => a + b) acc vk.Y_tilde)
        (List.replicate vk0.Y_tilde.length 0)⟩, ?_, ?_, ?_, ?_⟩
    · simp only [AggregatedVerkeyFast.from_verkeys]
      rw [if_pos hall]
    · have hx := foldl_add_eq_sum (fun vk : Verkey q => vk.X_tilde) (vk0 :: rest) 0
      rw [zero_add] at hx
      exact hx
    · exact foldl_zipWith_length vk0.Y_tilde.length (vk0 :: rest) _
        (List.length_replicate _ _) hall
    · intro i hi
      rw [foldl_zipWith_getD vk0.Y_tilde.length i hi (vk0 :: rest) _
        (List.length_replicate _ _) hall, getD_replicate_zero, zero_add]
  · intro s0 rest hall
    simp only [MultiSignatureFast.from_sigs, MultiSignatureFast.combine]
    rw [if_pos hall]
    have hs : (s0 :: rest).foldl (fun acc s => acc + s.sigma_2) 0 =
        ((s0 :: rest).map (fun s => s.sigma_2)).sum := by
      simpa using foldl_add_eq_sum (fun s : Signature q => s.sigma_2) (s0 :: rest) 0
    rw [hs]

/-- Witness for C4 at concrete inputs: two compatible verkeys aggregate to
the componentwise sums, and two signatures sharing sigma_1 aggregate to the
sum of their sigma_2 components. -/
theorem C4_aggregate_values_witness :
    (∃ avk : Verkey 5,
      AggregatedVerkeyFast.from_verkeys [⟨1, [2]⟩, ⟨3, [4]⟩] = .ok avk
      ∧ avk.X_tilde = (([⟨1, [2]⟩, ⟨3, [4]⟩] : List (Verkey 5)).map (fun vk => vk.X_tilde)).sum
      ∧ avk.Y_tilde.length = 1
      ∧ ∀ i < 1, avk.Y_tilde.getD i 0 =
          (([⟨1, [2]⟩, ⟨3, [4]⟩] : List (Verkey 5)).map (fun vk => vk.Y_tilde.getD i 0)).sum)
  ∧ MultiSignatureFast.from_sigs (q := 5) [⟨2, 3⟩, ⟨2, 4⟩] =
      some (.ok ⟨2, (([⟨2, 3⟩, ⟨2, 4⟩] : List (Signature 5)).map (fun s => s.sigma_2)).sum⟩) :=
  ⟨(C4_aggregate_values (q := 5)).1 ⟨1, [2]⟩ [⟨3, [4]⟩] (by decide),
   (C4_aggregate_values (q := 5)).2 ⟨2, 3⟩ [⟨2, 4⟩] (by decide)⟩

/-- C1 counterexample: with the keygen output x = 0, y = [0] (in the support
of uniform sampling), message vector [0] of length L = 1 and random exponent
u = 1, Signature::new succeeds but produces sigma_2 equal to the identity, so
verify returns Ok(false), not Ok(true) as the claim states. -/
theorem C1_counterexample :
    Signature.new (q := 5) [0] (keygen 0 [0] ⟨1, 1⟩).1 ⟨1, 1⟩ 1 = .ok ⟨1, 0⟩
  ∧ Signature.verify (q := 5) ⟨1, 0⟩ [0] (keygen 0 [0] ⟨1, 1⟩).2 ⟨1, 1⟩ =
      some (.ok false) :=
  ⟨rfl, rfl⟩

/-- C1 amended: for keys from keygen and any message vector of matching
length L >= 1, Signature::new succeeds, and the resulting signature verifies
to Ok(true) provided no signature component is the identity, i.e. provided
the sampled exponent u is nonzero, the generator g is not the identity, and
the signing exponent x + sum of y_i * m_i is nonzero; otherwise verify
reports Ok(false). -/
theorem C1_sign_then_verify [Fact (Nat.Prime q)] (params : Params q) (x : ZMod q)
    (y M : List (ZMod q)) (u : ZMod q)
    (_hL : 1 ≤ M.length) (hlen : y.length = M.length)
    (hg : params.g ≠ 0) (hu : u ≠ 0) (he : x + dot y M ≠ 0) :
    ∃ sig : Signature q,
      Signature.new M (keygen x y params).1 params u = .ok sig
      ∧ Signature.verify sig M (keygen x y params).2 params = some (.ok true) := by
  have hchk : check_sigkey_and_messages_compat M (keygen x y params).1 = .ok () := by
    unfold check_sigkey_and_messages_compat keygen
    rw [if_neg (by simp [hlen])]
  have hsig2 : Signature.sign_with_given_sigma_1 M (keygen x y params).1 0 (u * params.g) =
      .ok ((x + dot y M) * (u * params.g)) := by
    unfold Signature.sign_with_given_sigma_1 keygen
    rw [if_neg (by simp [hlen])]
    simp
  refine ⟨⟨u * params.g, (x + dot y M) * (u * params.g)⟩, ?_, ?_⟩
  · simp only [Signature.new, Signature.sign_with_sigma_1_generated_from_given_exp,
      hchk, hsig2]
  · have hlen2 : ((keygen x y params).2).Y_tilde.length = M.length := by
      simp [keygen, hlen]
    have hid : ¬ (Signature.is_identity ⟨u * params.g, (x + dot y M) * (u * params.g)⟩) := by
      simp only [Signature.is_identity, not_or]
      exact ⟨mul_ne_zero hu hg, mul_ne_zero he (mul_ne_zero hu hg)⟩
    rw [verify_pairing_eq _ M _ params hlen2 hid]
    simp only [keygen]
    simp only [Option.some.injEq, Except.ok.injEq]
    rw [decide_eq_true_eq]
    rw [dot_map_mul params.g_tilde y M]
    unfold ate_2_pairing
    ring

/-- Witness for C1 amended at a concrete input with all side conditions met. -/
theorem C1_sign_then_verify_witness :
    (1 : ZMod 5) + dot [1] [1] ≠ 0
  ∧ ∃ sig : Signature 5,
      Signature.new [1] (keygen 1 [1] ⟨1, 1⟩).1 ⟨1, 1⟩ 1 = .ok sig
      ∧ Signature.verify sig [1] (keygen 1 [1] ⟨1, 1⟩).2 ⟨1, 1⟩ = some (.ok true) := by
  have ha : (1 : ZMod 5) + dot [1] [1] ≠ 0 := by decide
  have hb : (1 : ℕ) ≤ [(1 : ZMod 5)].length := by decide
  have hc : (⟨1, 1⟩ : Params 5).g ≠ 0 := by decide
  have hd : (1 : ZMod 5) ≠ 0 := by decide
  haveI : Fact (Nat.Prime 5) := ⟨by norm_num⟩
  exact ⟨ha, C1_sign_then_verify (q := 5) ⟨1, 1⟩ 1 [1] [1] 1 hb rfl hc hd ha⟩

/-- C5: for nonzero r and matching lengths, the randomized signature
(sigma_1^r, sigma_2^r) verifies to Ok(true) exactly when the original does. -/
theorem C5_randomization_invariance [Fact (Nat.Prime q)] (sig : Signature q)
    (M : List (ZMod q)) (vk : Verkey q) (params : Params q) (r : ZMod q)
    (hr : r ≠ 0) (hlen : vk.Y_tilde.length = M.length) :
    (Signature.verify ⟨r * sig.sigma_1, r * sig.sigma_2⟩ M vk params = some (.ok true)
      ↔ Signature.verify sig M vk params = some (.ok true)) := by
  by_cases hid : sig.is_identity
  · have hid2 : Signature.is_identity ⟨r * sig.sigma_1, r * sig.sigma_2⟩ := by
      rcases hid with h | h
      · exact Or.inl (by rw [h, mul_zero])
      · exact Or.inr (by rw [h, mul_zero])
    rw [verify_of_identity _ M vk params hlen hid2,
      verify_of_identity sig M vk params hlen hid]
  · have h1 : sig.sigma_1 ≠ 0 ∧ sig.sigma_2 ≠ 0 := by
      rw [Signature.is_identity, not_or] at hid
      exact hid
    have hid2 : ¬ Signature.is_identity ⟨r * sig.sigma_1, r * sig.sigma_2⟩ := by
      simp only [Signature.is_identity, not_or]
      exact ⟨mul_ne_zero hr h1.1, mul_ne_zero hr h1.2⟩
    rw [verify_pairing_eq _ M vk params hlen hid2,
      verify_pairing_eq sig M vk params hlen hid]
    simp only [Option.some.injEq, Except.ok.injEq, decide_eq_true_eq]
    unfold ate_2_pairing
    constructor
    · intro h
      have h2 : r * (sig.sigma_1 * (vk.X_tilde + dot vk.Y_tilde M) +
          -sig.sigma_2 * params.g_tilde) = 0 := by
        rw [← h]
        ring
      rcases mul_eq_zero.mp h2 with h3 | h3
      · exact absurd h3 hr
      · exact h3
    · intro h
      have h2 : (r * sig.sigma_1) * (vk.X_tilde + dot vk.Y_tilde M) +
          (-(r * sig.sigma_2)) * params.g_tilde =
          r * (sig.sigma_1 * (vk.X_tilde + dot vk.Y_tilde M) +
            -sig.sigma_2 * params.g_tilde) := by
        ring
      rw [h2, h, mul_zero]

/-- Witness for C5 at a concrete input where both signatures verify. -/
theorem C5_randomization_invariance_witness :
    (2 : ZMod 5) ≠ 0
  ∧ (Signature.verify (q := 5) ⟨2 * 1, 2 * 2⟩ [1] ⟨1, [1]⟩ ⟨1, 1⟩ = some (.ok true)
      ↔ Signature.verify (q := 5) ⟨1, 2⟩ [1] ⟨1, [1]⟩ ⟨1, 1⟩ = some (.ok true)) := by
  have ha : (2 : ZMod 5) ≠ 0 := by decide
  haveI : Fact (Nat.Prime 5) := ⟨by norm_num⟩
  exact ⟨ha, C5_randomization_invariance (q := 5) ⟨1, 2⟩ [1] ⟨1, [1]⟩ ⟨1, 1⟩ 2 ha rfl⟩

/-- Sum of a map with a common right factor. -/
theorem sum_map_mul_const {α : Type} (f : α → ZMod q) (r : ZMod q) : ∀ (l : List α),
    (l.map (fun x => f x * r)).sum = (l.map f).sum * r
  | [] => by simp
  | x :: xs => by
    simp only [List.map_cons, List.sum_cons, sum_map_mul_const f r xs]
    ring

/-- Sum of a map with a common left factor. -/
theorem sum_map_const_mul {α : Type} (f : α → ZMod q) (r : ZMod q) : ∀ (l : List α),
    (l.map (fun x => r * f x)).sum = r * (l.map f).sum
  | [] => by simp
  | x :: xs => by
    simp only [List.map_cons, List.sum_cons, sum_map_const_mul f r xs]
    ring

/-- from_verkeys on a compatible non-empty list returns the fold values. -/
theorem from_verkeys_cons_ok (vk0 : Verkey q) (rest : List (Verkey q))
    (hall : ∀ vk ∈ vk0 :: rest, vk.Y_tilde.length = vk0.Y_tilde.length) :
    AggregatedVerkeyFast.from_verkeys (vk0 :: rest) =
      .ok ⟨(vk0 :: rest).foldl (fun acc vk => acc + vk.X_tilde) 0,
           (vk0 :: rest).foldl (fun acc vk => List.zipWith (fun a b => a + b) acc vk.Y_tilde)
             (List.replicate vk0.Y_tilde.length 0)⟩ := by
  simp only [AggregatedVerkeyFast.from_verkeys]
  rw [if_pos hall]

/-- Accumulating the sigma_2 components of signatures (h, e*h) sums the
exponents. -/
theorem foldl_sigma2_map (h : ZMod q) : ∀ (es : List (ZMod q)) (s : ZMod q),
    (es.map (fun e => (⟨h, e * h⟩ : Signature q))).foldl
      (fun acc sg => acc + sg.sigma_2) s = s + es.sum * h
  | [], s => by simp
  | e :: es, s => by
    simp only [List.map_cons, List.foldl_cons, List.sum_cons, foldl_sigma2_map h es]
    ring

/-- from_sigs on signatures that all share sigma_1 = h and have sigma_2 of
the form e*h returns (h, (sum of exponents) * h). -/
theorem from_sigs_mapped (h : ZMod q) (e0 : ZMod q) (es : List (ZMod q)) :
    MultiSignatureFast.from_sigs ((⟨h, e0 * h⟩ : Signature q) ::
        es.map (fun e => (⟨h, e * h⟩ : Signature q))) =
      some (.ok ⟨h, (e0 + es.sum) * h⟩) := by
  have hg : ∀ s ∈ (⟨h, e0 * h⟩ : Signature q) ::
      es.map (fun e => (⟨h, e * h⟩ : Signature q)),
      s.sigma_1 = (⟨h, e0 * h⟩ : Signature q).sigma_1 := by
    intro s hs
    rcases List.mem_cons.mp hs with h' | h'
    · rw [h']
    · obtain ⟨e, he, rfl⟩ := List.mem_map.mp h'
      rfl
  simp only [MultiSignatureFast.from_sigs, MultiSignatureFast.combine]
  rw [if_pos hg, List.foldl_cons, foldl_sigma2_map h es]
  have harith : 0 + (⟨h, e0 * h⟩ : Signature q).sigma_2 + es.sum * h = (e0 + es.sum) * h := by
    show 0 + e0 * h + es.sum * h = (e0 + es.sum) * h
    ring
  rw [harith]

/-- An aggregate signature (h, S*h) with S the summed signing exponents
verifies against the keygen verkeys of the signers, provided h and S are
nonzero. -/
theorem multi_verify_mapped [Fact (Nat.Prime q)] (params : Params q) (h : ZMod q)
    (M : List (ZMod q)) (p0 : ZMod q × List (ZMod q)) (ks : List (ZMod q × List (ZMod q)))
    (hlen : ∀ p ∈ p0 :: ks, p.2.length = M.length)
    (hh : h ≠ 0) (hS : ((p0 :: ks).map (fun p => p.1 + dot p.2 M)).sum ≠ 0) :
    MultiSignatureFast.verify ⟨h, ((p0 :: ks).map (fun p => p.1 + dot p.2 M)).sum * h⟩ M
      ((p0 :: ks).map (fun p => (keygen p.1 p.2 params).2)) params = some (.ok true) := by
  have hglen : ∀ p ∈ p0 :: ks, ((keygen p.1 p.2 params).2).Y_tilde.length = M.length := by
    intro p hp
    simp [keygen, hlen p hp]
  have hguardV : ∀ vk ∈ (keygen p0.1 p0.2 params).2 ::
      ks.map (fun p => (keygen p.1 p.2 params).2),
      vk.Y_tilde.length = ((keygen p0.1 p0.2 params).2).Y_tilde.length := by
    intro vk hvk
    rcases List.mem_cons.mp hvk with h' | h'
    · rw [h']
    · obtain ⟨p, hp, rfl⟩ := List.mem_map.mp h'
      rw [hglen p (List.mem_cons_of_mem p0 hp), hglen p0 (List.mem_cons_self p0 ks)]
  have hallM : ∀ vk ∈ (keygen p0.1 p0.2 params).2 ::
      ks.map (fun p => (keygen p.1 p.2 params).2),
      vk.Y_tilde.length = M.length := by
    intro vk hvk
    rw [hguardV vk hvk, hglen p0 (List.mem_cons_self p0 ks)]
  have hacc : (List.replicate ((keygen p0.1 p0.2 params).2).Y_tilde.length
      (0 : ZMod q)).length = M.length := by
    rw [List.length_replicate, hglen p0 (List.mem_cons_self p0 ks)]
  have hfv := from_verkeys_cons_ok (keygen p0.1 p0.2 params).2
    (ks.map (fun p => (keygen p.1 p.2 params).2)) hguardV
  have hlenA : (((keygen p0.1 p0.2 params).2 ::
        ks.map (fun p => (keygen p.1 p.2 params).2)).foldl
          (fun acc vk => List.zipWith (fun a b => a + b) acc vk.Y_tilde)
          (List.replicate ((keygen p0.1 p0.2 params).2).Y_tilde.length 0)).length =
      M.length :=
    foldl_zipWith_length M.length _ _ hacc hallM
  have hid : ¬ Signature.is_identity
      ⟨h, ((p0 :: ks).map (fun p => p.1 + dot p.2 M)).sum * h⟩ := by
    simp only [Signature.is_identity, not_or]
    exact ⟨hh, mul_ne_zero hS hh⟩
  simp only [MultiSignatureFast.verify, List.map_cons] at hid ⊢
  simp only [hfv]
  rw [verify_pairing_eq _ M _ params hlenA hid]
  simp only [Option.some.injEq, Except.ok.injEq]
  rw [decide_eq_true_eq]
  have hX := foldl_add_eq_sum (fun vk : Verkey q => vk.X_tilde)
    ((keygen p0.1 p0.2 params).2 :: ks.map (fun p => (keygen p.1 p.2 params).2)) 0
  rw [hX, zero_add]
  have hY := foldl_zipWith_dot M.length M
    ((keygen p0.1 p0.2 params).2 :: ks.map (fun p => (keygen p.1 p.2 params).2))
    (List.replicate ((keygen p0.1 p0.2 params).2).Y_tilde.length 0) hacc hallM
  rw [hY, dot_replicate_zero, zero_add]
  simp only [List.map_cons, List.map_map, Function.comp_def, keygen, dot_map_mul,
    List.sum_cons]
  have h1 := sum_map_mul_const (fun p : ZMod q × List (ZMod q) => p.1) params.g_tilde ks
  have h2 := sum_map_const_mul (fun p : ZMod q × List (ZMod q) => dot p.2 M)
    params.g_tilde ks
  have h3 := sum_map_add (fun p : ZMod q × List (ZMod q) => p.1)
    (fun p => dot p.2 M) ks
  rw [h1, h2, h3]
  unfold ate_2_pairing
  ring

/-- C3 counterexample: with one signer whose keygen output is x = 0, y = [0]
(in the support of uniform sampling), message vector [0] and a non-identity
hash output for sigma_1, new_deterministic succeeds and aggregation succeeds,
but the aggregate sigma_2 is the identity, so MultiSignatureFast::verify
returns Ok(false), not Ok(true) as the claim states. -/
theorem C3_counterexample :
    Signature.new_deterministic (q := 5) (fun _ => 1) [0] (keygen 0 [0] ⟨1, 1⟩).1 =
      .ok ⟨1, 0⟩
  ∧ MultiSignatureFast.from_sigs (q := 5) [⟨1, 0⟩] = some (.ok ⟨1, 0⟩)
  ∧ MultiSignatureFast.verify (q := 5) ⟨1, 0⟩ [0] [(keygen 0 [0] ⟨1, 1⟩).2] ⟨1, 1⟩ =
      some (.ok false) :=
  ⟨rfl, rfl, rfl⟩

/-- C3 amended: for any non-empty collection of keygen key pairs matching a
message vector of length L >= 1, each deterministic signature succeeds, the
signatures aggregate (they share sigma_1 = hash(M)), and the aggregate
verifies to Ok(true) against the key set, provided the common hash output is
not the identity and the summed signing exponent is nonzero; otherwise an
aggregate component is the identity and verify reports Ok(false). -/
theorem C3_aggregate_sign_then_verify [Fact (Nat.Prime q)] (params : Params q)
    (hashG : List (ZMod q) → ZMod q) (M : List (ZMod q))
    (ks : List (ZMod q × List (ZMod q)))
    (hk : ks ≠ []) (_hL : 1 ≤ M.length)
    (hlen : ∀ p ∈ ks, p.2.length = M.length)
    (hh : hashG M ≠ 0)
    (hsum : (ks.map (fun p => p.1 + dot p.2 M)).sum ≠ 0) :
    (∀ p ∈ ks, Signature.new_deterministic hashG M (keygen p.1 p.2 params).1 =
        .ok ⟨hashG M, (p.1 + dot p.2 M) * hashG M⟩)
  ∧ ∃ agg : Signature q,
      MultiSignatureFast.from_sigs
          (ks.map (fun p => ⟨hashG M, (p.1 + dot p.2 M) * hashG M⟩)) = some (.ok agg)
      ∧ MultiSignatureFast.verify agg M
          (ks.map (fun p => (keygen p.1 p.2 params).2)) params = some (.ok true) := by
  constructor
  · intro p hp
    have hplen := hlen p hp
    have hchk : check_sigkey_and_messages_compat M (keygen p.1 p.2 params).1 = .ok () := by
      unfold check_sigkey_and_messages_compat keygen
      rw [if_neg (by simp [hplen])]
    have hs2 : Signature.sign_with_given_sigma_1 M (keygen p.1 p.2 params).1 0 (hashG M) =
        .ok ((p.1 + dot p.2 M) * hashG M) := by
      unfold Signature.sign_with_given_sigma_1 keygen
      rw [if_neg (by simp [hplen])]
      simp
    simp only [Signature.new_deterministic, hchk, hs2]
  · cases ks with
    | nil => exact absurd rfl hk
    | cons p0 ks =>
      refine ⟨⟨hashG M, ((p0 :: ks).map (fun p => p.1 + dot p.2 M)).sum * hashG M⟩, ?_,
        multi_verify_mapped params (hashG M) M p0 ks hlen hh hsum⟩
      have key := from_sigs_mapped (hashG M) (p0.1 + dot p0.2 M)
        (ks.map (fun p => p.1 + dot p.2 M))
      rw [List.map_map] at key
      simp only [List.map_cons, List.sum_cons]
      exact key

/-- Witness for C3 amended with one concrete signer. -/
theorem C3_aggregate_sign_then_verify_witness :
    Signature.new_deterministic (q := 5) (fun _ => 1) [1] (keygen 1 [1] ⟨1, 1⟩).1 =
      .ok ⟨1, (1 + dot [1] [1]) * 1⟩
  ∧ ∃ agg : Signature 5,
      MultiSignatureFast.from_sigs
          ([((1 : ZMod 5), [(1 : ZMod 5)])].map
            (fun p => ⟨1, (p.1 + dot p.2 [1]) * 1⟩)) = some (.ok agg)
      ∧ MultiSignatureFast.verify agg [1]
          ([((1 : ZMod 5), [(1 : ZMod 5)])].map (fun p => (keygen p.1 p.2 ⟨1, 1⟩).2)) ⟨1, 1⟩ =
          some (.ok true) := by
  have h1 : ([((1 : ZMod 5), [(1 : ZMod 5)])] : List (ZMod 5 × List (ZMod 5))) ≠ [] := by
    decide
  have h2 : (1 : ℕ) ≤ [(1 : ZMod 5)].length := by decide
  have h3 : ∀ p ∈ ([((1 : ZMod 5), [(1 : ZMod 5)])] : List (ZMod 5 × List (ZMod 5))),
      p.2.length = [(1 : ZMod 5)].length := by decide
  have h4 : (fun _ : List (ZMod 5) => (1 : ZMod 5)) [1] ≠ 0 := by decide
  have h5 : (([((1 : ZMod 5), [(1 : ZMod 5)])] : List (ZMod 5 × List (ZMod 5))).map
      (fun p => p.1 + dot p.2 [1])).sum ≠ 0 := by decide
  haveI : Fact (Nat.Prime 5) := ⟨by norm_num⟩
  have h := C3_aggregate_sign_then_verify (q := 5) ⟨1, 1⟩ (fun _ => 1) [1]
    [((1 : ZMod 5), [(1 : ZMod 5)])] h1 h2 h3 h4 h5
  exact ⟨h.1 (1, [1]) (List.mem_cons_self _ _), h.2⟩

end PS
